import Mathlib

/-!
Verification of the siebel_prometheus_exporter core: a shallow embedding of
the srvrmgr session manager (command framing, status gate, reconnection loop)
and of the scrape engine (fixed-width tabular parser, metric mapper, scrape
loop), with theorems checking the repository's specification against it.

The Go source works on byte strings; everything handled here is ASCII, where
byte positions and character positions coincide, so strings are modelled as
`String` / `List Char`.  Wall-clock durations are modelled in milliseconds.
-/

namespace SiebelExporter

/-! ## ASCII string primitives (models of the Go stdlib calls used) -/

/-- Character class of `strings.TrimSpace` (ASCII part of `unicode.IsSpace`). -/
def isGoSpace (c : Char) : Bool :=
  c = ' ' || c = '\t' || c = '\n' || c = '\x0b' || c = '\x0c' || c = '\r'

/-- Character class of `\s` in Go's regexp package: `[\t\n\f\r ]`. -/
def isRegexSpace (c : Char) : Bool :=
  c = '\t' || c = '\n' || c = '\x0c' || c = '\r' || c = ' '

/-- Character class of the cutset `" \n\t"` used by `strings.Trim` in
`trimHeadRow` and `getSpacerLength`. -/
def isHeadCut (c : Char) : Bool :=
  c = ' ' || c = '\n' || c = '\t'

/-- Trim characters satisfying `p` from both ends of a character list. -/
def trimEnds (p : Char → Bool) (l : List Char) : List Char :=
  ((l.dropWhile p).reverse.dropWhile p).reverse

/-- Model of `strings.TrimSpace` (ASCII inputs). -/
def goTrimSpace (s : String) : String :=
  String.mk (trimEnds isGoSpace s.data)

/-- Model of `strings.Trim(s, " \n\t")`. -/
def trimCutHead (s : String) : String :=
  String.mk (trimEnds isHeadCut s.data)

/-- Replace every maximal run of regexp whitespace by a single space, as
`regexp.MustCompile("\\s+").ReplaceAllString(s, " ")` does.  The flag records
whether the previous character was part of a whitespace run. -/
def collapseWSAux : Bool → List Char → List Char
  | _, [] => []
  | lastSpace, c :: rest =>
    if isRegexSpace c then
      if lastSpace then collapseWSAux true rest
      else ' ' :: collapseWSAux true rest
    else c :: collapseWSAux false rest

/-- Source `trimHeadRow`: trim the cutset `" \n\t"`, then collapse whitespace
runs to single spaces. -/
def trimHeadRow (s : String) : String :=
  String.mk (collapseWSAux false (trimCutHead s).data)

/-- Source `getSpacerLength`: length of the first whitespace run of the
trimmed separator row, `0` when there is none. -/
def getSpacerLength (s : String) : Nat :=
  (((trimCutHead s).data.dropWhile (fun c => !isRegexSpace c)).takeWhile isRegexSpace).length

/-- Whether `pat` occurs at the head of `l`. -/
def startsWithChars : List Char → List Char → Bool
  | _, [] => true
  | [], _ :: _ => false
  | c :: cs, p :: ps => c = p && startsWithChars cs ps

/-- Whether `pat` occurs anywhere in `l`. -/
def containsChars : List Char → List Char → Bool
  | [], pat => pat.isEmpty
  | c :: cs, pat => startsWithChars (c :: cs) pat || containsChars cs pat

/-- Substring test, modelling an unanchored regexp literal match. -/
def strContains (s pat : String) : Bool :=
  containsChars s.data pat.data

/-- ASCII lower-casing of one character (`strings.ToLower` on ASCII input). -/
def toLowerAscii (c : Char) : Char :=
  if 'A' ≤ c && c ≤ 'Z' then Char.ofNat (c.toNat + 32) else c

/-- ASCII model of `strings.ToLower`. -/
def toLowerStr (s : String) : String :=
  String.mk (s.data.map toLowerAscii)

/-- Characters kept by `cleanName`: `[a-zA-Z0-9_]`. -/
def isNameChar (c : Char) : Bool :=
  ('a' ≤ c && c ≤ 'z') || ('A' ≤ c && c ≤ 'Z') || ('0' ≤ c && c ≤ '9') || c = '_'

/-- Source `cleanName`: trim, spaces to underscores, strip characters outside
`[a-zA-Z0-9_]`, lower-case. -/
def cleanName (s : String) : String :=
  let s1 := goTrimSpace s
  let s2 := String.mk (s1.data.map (fun c => if c = ' ' then '_' else c))
  let s3 := String.mk (s2.data.filter isNameChar)
  toLowerStr s3

/-- Byte-wise lexicographic order on ASCII strings, as `sort.Strings` uses. -/
def charListLe : List Char → List Char → Bool
  | [], _ => true
  | _ :: _, [] => false
  | a :: as, b :: bs => if a = b then charListLe as bs else decide (a.toNat < b.toNat)

/-- Ordered insertion for the sort below. -/
def insertSorted (x : String) : List String → List String
  | [] => [x]
  | y :: ys => if charListLe x.data y.data then x :: y :: ys else y :: insertSorted x ys

/-- Model of `sort.Strings`: sort in byte-wise lexicographic order.  The
comparison is a total order and equal strings are identical, so any correct
sort produces the same list as Go's. -/
def sortStrings (l : List String) : List String :=
  l.foldr insertSorted []

/-- Splitting on a single space, as `strings.Split(s, " ")` does: no run
collapsing, adjacent separators produce empty fields, the empty string
yields one empty field.  `cur` holds the current field reversed. -/
def splitSpacesAux : List Char → List Char → List String
  | [], cur => [String.mk cur.reverse]
  | c :: rest, cur =>
    if c = ' ' then String.mk cur.reverse :: splitSpacesAux rest []
    else splitSpacesAux rest (c :: cur)

/-- Model of `strings.Split(s, " ")`. -/
def splitOnSpace (s : String) : List String :=
  splitSpacesAux s.data []

/-- Model of `strings.TrimRight(s, ", ")`. -/
def trimRightCommaSpace (s : String) : String :=
  String.mk ((s.data.reverse.dropWhile (fun c => c = ',' || c = ' ')).reverse)

/-! ## Numeric string parsing (models of `strconv` and `time.Parse`) -/

/-- Decimal digit test. -/
def isDigitGo (c : Char) : Bool :=
  '0' ≤ c && c ≤ '9'

/-- Value of a list of decimal digits. -/
def digitsToNat (l : List Char) : Nat :=
  l.foldl (fun a c => a * 10 + (c.toNat - 48)) 0

/-- Model of `strconv.ParseUint(s, 10, 64)`: non-empty, decimal digits only,
within 64 bits.  (Digit-group underscores are only accepted by base 0, not by
base 10, so they are rightly rejected here.) -/
def parseGoUint (s : String) : Option Nat :=
  if s.data ≠ [] && s.data.all isDigitGo && digitsToNat s.data < 2 ^ 64 then
    some (digitsToNat s.data)
  else none

/-- Exponent part of a float literal: `e`/`E`, optional sign, digits.
Returns the signed exponent when the remainder is exactly consumed. -/
def parseFloatExp : List Char → Option Int
  | [] => some 0
  | e :: rest =>
    if e = 'e' || e = 'E' then
      let (sgn, ds) : Int × List Char :=
        match rest with
        | '+' :: r => (1, r)
        | '-' :: r => (-1, r)
        | r => (1, r)
      if ds ≠ [] && ds.all isDigitGo then some (sgn * (digitsToNat ds : Int))
      else none
    else none

/-- Model of `strconv.ParseFloat(s, 64)` on plain decimal literals, keeping
the value exact as a rational.  IEEE-754 rounding, hex floats, digit-group
underscores and the `Inf`/`NaN` literals are not modelled; every value parsed
in the theorems below is a small decimal that float64 represents exactly. -/
def parseGoFloat (s : String) : Option Rat :=
  let (sgn, cs) : Int × List Char :=
    match s.data with
    | '+' :: r => (1, r)
    | '-' :: r => (-1, r)
    | r => (1, r)
  let intDigits := cs.takeWhile isDigitGo
  let rest := cs.dropWhile isDigitGo
  let (fracDigits, rest2) : List Char × List Char :=
    match rest with
    | '.' :: r => (r.takeWhile isDigitGo, r.dropWhile isDigitGo)
    | r => ([], r)
  if intDigits = [] && fracDigits = [] then none
  else
    match parseFloatExp rest2 with
    | none => none
    | some e =>
      -- value = sign * (digits as an integer) / 10^(fraction length) * 10^e,
      -- assembled as one normalized fraction
      let mantNum : Nat := digitsToNat (intDigits ++ fracDigits)
      if e ≥ 0 then
        some (mkRat (sgn * (mantNum * 10 ^ e.toNat : Nat)) (10 ^ fracDigits.length))
      else
        some (mkRat (sgn * (mantNum : Int)) (10 ^ fracDigits.length * 10 ^ (-e).toNat))

/-- Gregorian leap-year test. -/
def isLeapYear (y : Int) : Bool :=
  y % 4 = 0 && (y % 100 ≠ 0 || y % 400 = 0)

/-- Days in a month of a given year. -/
def daysInMonth (y : Int) (m : Nat) : Nat :=
  if m = 2 then (if isLeapYear y then 29 else 28)
  else if m = 4 || m = 6 || m = 9 || m = 11 then 30
  else 31

/-- Days since the Unix epoch of a civil date (proleptic Gregorian). -/
def daysFromCivil (y : Int) (m d : Nat) : Int :=
  let y' : Int := if m ≤ 2 then y - 1 else y
  let era : Int := (if y' ≥ 0 then y' else y' - 399) / 400
  let yoe : Int := y' - era * 400
  let mp : Int := if m > 2 then (m : Int) - 3 else (m : Int) + 9
  let doy : Int := (153 * mp + 2) / 5 + (d : Int) - 1
  let doe : Int := yoe * 365 + yoe / 4 - yoe / 100 + doy
  era * 146097 + doe - 719468

/-- Read exactly `n` decimal digits from the front of `l`. -/
def takeDigits (n : Nat) (l : List Char) : Option (Nat × List Char) :=
  let ds := l.take n
  if ds.length = n && ds.all isDigitGo then some (digitsToNat ds, l.drop n)
  else none

/-- Model of `time.Parse(layout, s).Unix()` restricted to the one layout this
repository configures, `"2006-01-02 15:04:05"` (strict two-digit fields,
UTC); every other layout is treated as failing to parse.  No theorem below
evaluates this function. -/
def goTimeParseUnix (layout s : String) : Option Int :=
  if layout = "2006-01-02 15:04:05" then
    match takeDigits 4 s.data with
    | none => none
    | some (y, r1) =>
      match r1 with
      | '-' :: r2 =>
        match takeDigits 2 r2 with
        | none => none
        | some (mo, r3) =>
          match r3 with
          | '-' :: r4 =>
            match takeDigits 2 r4 with
            | none => none
            | some (d, r5) =>
              match r5 with
              | ' ' :: r6 =>
                match takeDigits 2 r6 with
                | none => none
                | some (h, r7) =>
                  match r7 with
                  | ':' :: r8 =>
                    match takeDigits 2 r8 with
                    | none => none
                    | some (mi, r9) =>
                      match r9 with
                      | ':' :: r10 =>
                        match takeDigits 2 r10 with
                        | none => none
                        | some (sec, r11) =>
                          if r11 = [] && 1 ≤ mo && mo ≤ 12 && 1 ≤ d &&
                              d ≤ daysInMonth (y : Int) mo && h ≤ 23 && mi ≤ 59 && sec ≤ 59 then
                            some (daysFromCivil (y : Int) mo d * 86400 +
                              (h : Int) * 3600 + (mi : Int) * 60 + (sec : Int))
                          else none
                      | _ => none
                  | _ => none
              | _ => none
          | _ => none
      | _ => none
  else none

/-- Source `convertDateStringToTimestamp`: the all-zero literal maps to "0",
a parsable date becomes its Unix timestamp, anything else passes through. -/
def convertDateStringToTimestamp (s dateFormat : String) : String :=
  if s = "0000-00-00 00:00:00" then "0"
  else
    match goTimeParseUnix dateFormat s with
    | none => s
    | some t => toString t

/-! ## Server manager: status machine, command channel, reconnection

Embedding of `pkg/servermanager` (config.go, command.go, reconnect.go).
-/

/-- Connection status of the ServerManager (config.go). -/
inductive Status where
  | Disconnected
  | Connecting
  | Disconnecting
  | Connected
  | ConnectionError
  | Reconnecting
deriving DecidableEq, Repr

/-- Exponential-backoff configuration (config.go).  Durations are in
milliseconds; `Multiplier` and `JitterFactor` are the float64 fields kept
exact as rationals. -/
structure BackoffConfig where
  InitialDelay : Nat
  MaxDelay : Nat
  Multiplier : Rat
  MaxRetries : Nat
  JitterFactor : Rat
deriving DecidableEq, Repr

/-- Default backoff configuration (config.go): 5s initial, 5min max,
multiplier 1.5, 10 retries, jitter 0.2. -/
def DefaultBackoffConfig : BackoffConfig :=
  ⟨5000, 300000, 3 / 2, 10, 1 / 5⟩

/-- Default reconnect delay (config.go): 10 seconds. -/
def DefaultReconnectDelay : Nat := 10000

/-- The configuration fields of `ServerManagerConfig` that the session logic
reads (connection strings are opaque to every claim). -/
structure ServerManagerConfig where
  AutoReconnect : Bool
  ReconnectDelay : Nat
  Backoff : BackoffConfig
deriving DecidableEq, Repr

/-- Outcome of the status gate at the top of `SendCommandWithTimeout`
(command.go lines 25-47).  `proceeds` means execution reaches
`sendCommandWithContext`, which performs the stdin write; either error
constructor means the call returns an error without writing to stdin. -/
inductive SendOutcome where
  | proceeds
  | errNotConnected
  | errReconnecting
deriving DecidableEq, Repr

/-- The status gate of `SendCommandWithTimeout`: `before` is the status at
entry, `after` the status re-read once the 500ms grace sleep taken in the
`Reconnecting` case has elapsed. -/
def sendCommandStatusCheck (before after : Status) : SendOutcome :=
  if before = Status.Connected then SendOutcome.proceeds
  else if before = Status.Reconnecting then
    if after = Status.Connected then SendOutcome.proceeds
    else SendOutcome.errReconnecting
  else SendOutcome.errNotConnected

/-- Helper of `removeDuplicates` (command.go): `seen` is the membership set
that the source tracks in a `map[string]struct{}`. -/
def removeDuplicatesAux (seen : List String) : List String → List String
  | [] => []
  | s :: rest =>
    if s ∈ seen then removeDuplicatesAux seen rest
    else s :: removeDuplicatesAux (s :: seen) rest

/-- Source `removeDuplicates`: drop every repeat of an earlier string. -/
def removeDuplicates (input : List String) : List String :=
  removeDuplicatesAux [] input

/-- The prompt-start pattern `srvrmgr(:.*|>)` of `NewServerManager`, as an
unanchored match: the line contains `srvrmgr:` or `srvrmgr>`. -/
def promptStartedMatch (line : String) : Bool :=
  strContains line "srvrmgr:" || strContains line "srvrmgr>"

/-- The terminator pattern `.*\ row(|s)\ returned\.` of `NewServerManager`,
as an unanchored match: the line contains " row returned." or
" rows returned.". -/
def promptEndedMatch (line : String) : Bool :=
  strContains line " row returned." || strContains line " rows returned."

/-- Result of one command/response exchange: the returned line list, and
whether the wait ended by timeout (`timedOut = false` is the successful
prompt/terminator exit). -/
structure CommandResult where
  lines : List String
  timedOut : Bool
deriving DecidableEq, Repr

/-- The stderr phase of the polling loop of `sendCommandWithContext`: once
the stdout queue is exhausted (and stays so), each poll appends the next
trimmed stderr line to the output without ever ending the wait; with both
queues drained the context deadline fires and the accumulated output is
returned with a timeout error. -/
def sendLoopErr (stderrQ : List String) (skipInitial : Bool)
    (output : List String) : CommandResult :=
  match stderrQ with
  | [] => ⟨output, true⟩
  | line :: rest => sendLoopErr rest skipInitial (output ++ [goTrimSpace line])

/-- The polling loop of `sendCommandWithContext` (command.go lines 163-262),
run to completion over fixed stdout/stderr queues.  Each poll takes the head
of the stdout queue if it is non-empty, so over fixed queues the stdout
lines are processed first and the stderr drain (`sendLoopErr`) follows. -/
def sendLoop (stdoutQ stderrQ : List String) (skipInitial : Bool)
    (output : List String) : CommandResult :=
  match stdoutQ with
  | [] => sendLoopErr stderrQ skipInitial output
  | line :: rest =>
    let l := goTrimSpace line
    if skipInitial then
      if promptStartedMatch l then sendLoop rest stderrQ false output
      else sendLoop rest stderrQ true output
    else if promptStartedMatch l || promptEndedMatch l then
      ⟨removeDuplicates output, false⟩
    else sendLoop rest stderrQ skipInitial (output ++ [l])

/-- Delay trace of the reconnection loop started by `tryReconnect`
(reconnect.go lines 115-146): `outcomes` lists the success/failure of each
`connect()` attempt; after every failed attempt the loop waits the fixed
`ReconnectDelay` snapshot taken before the loop, and a successful attempt
exits.  The returned list is the sequence of waits, in order. -/
def reconnectWaits (cfg : ServerManagerConfig) : List Bool → List Nat
  | [] => []
  | ok :: rest => if ok then [] else cfg.ReconnectDelay :: reconnectWaits cfg rest

/-- Modelled from the spec: the backoff delay sequence the specification
describes for the reconnection loop with jitter factor 0, `delay(0) =
InitialDelay` and `delay(n+1) = min(delay(n) * Multiplier, MaxDelay)`.
No code under `src/` implements this formula; this definition exists to be
compared with `reconnectWaits`. -/
def specBackoffDelay (b : BackoffConfig) : Nat → Rat
  | 0 => (b.InitialDelay : Rat)
  | n + 1 => min (specBackoffDelay b n * b.Multiplier) (b.MaxDelay : Rat)

/-! ## Exporter: tabular parser and metric mapper

Embedding of `pkg/exporter` (metrics scraping).  Go's string-keyed maps are
modelled as association lists; Go map iteration order is unspecified, the
association-list order stands in for one such order and no theorem below
depends on it (the maps involved are single-entry or key-disjoint).
-/

/-- Look up the first binding of `k`. -/
def mapGet {α : Type} (m : List (String × α)) (k : String) : Option α :=
  (m.find? (fun kv => kv.1 == k)).map Prod.snd

/-- Go's `row[k]` on a `map[string]string`: the zero value `""` if absent. -/
def rowGet (row : List (String × String)) (k : String) : String :=
  (mapGet row k).getD ""

/-- Go's `m[k] = v` on an association list: replace the binding if the key is
present, append it otherwise. -/
def upsert : List (String × String) → String → String → List (String × String)
  | [], k, v => [(k, v)]
  | kv :: rest, k, v =>
    if kv.1 = k then (k, v) :: rest else kv :: upsert rest k v

/-- A parsed data row: column name to extracted string value. -/
abbrev Row := List (String × String)

/-- The key set of a row, in insertion order. -/
def rowKeys (r : Row) : List String :=
  r.map Prod.fst

/-- The metric definition record (exporter config), Go maps as association
lists.  `Type_` renders the Go field `Type`, which is a reserved word in
Lean. -/
structure Metric where
  Command : String
  Subsystem : String
  Help : List (String × String)
  HelpField : List (String × String)
  Type_ : List (String × String)
  Buckets : List (String × List (String × String))
  ValueMap : List (String × List (String × String))
  Labels : List String
  FieldToAppend : String
  IgnoreZeroResult : Bool
  Extended : Bool
deriving DecidableEq, Repr

/-- The Prometheus value types produced by `getMetricType`; `untypedValue`
is the marker the source uses for histogram columns. -/
inductive PromValueType where
  | gaugeValue
  | counterValue
  | untypedValue
deriving DecidableEq, Repr

/-- An emitted sample: fully-qualified name, help text, ordered labels,
numeric value, and the histogram payload when `valueType` is
`untypedValue`. -/
structure Sample where
  name : String
  help : String
  labelNames : List String
  labelValues : List String
  valueType : PromValueType
  value : Rat
  histCount : Nat
  histBuckets : List (Rat × Nat)
deriving DecidableEq, Repr

/-- Model of `prometheus.BuildFQName`: join the non-empty parts of
namespace, subsystem, name with underscores. -/
def buildFQName (ns ss name : String) : String :=
  if name = "" then ""
  else if ns ≠ "" && ss ≠ "" then ns ++ "_" ++ ss ++ "_" ++ name
  else if ns ≠ "" then ns ++ "_" ++ name
  else if ss ≠ "" then ss ++ "_" ++ name
  else name

/-- Source `createMetricKey`: `fqName{v1,v2,...}`. -/
def createMetricKey (ns ss name : String) (labelValues : List String) : String :=
  buildFQName ns ss name ++ "\x7b" ++ String.intercalate "," labelValues ++ "\x7d"

/-- The dedup key a sample occupies, recomputed from its own fields; for a
sample built by the mapper this equals the `createMetricKey` it was
registered under. -/
def sampleKey (s : Sample) : String :=
  s.name ++ "\x7b" ++ String.intercalate "," s.labelValues ++ "\x7d"

/-- Source `getMetricType`: the per-column type tag, defaulting to gauge for
a missing or unknown tag. -/
def getMetricType (metricName : String) (metricsTypes : List (String × String)) :
    PromValueType :=
  match mapGet metricsTypes metricName with
  | none => PromValueType.gaugeValue
  | some strType =>
    let t := toLowerStr strType
    if t = "gauge" then PromValueType.gaugeValue
    else if t = "counter" then PromValueType.counterValue
    else if t = "histogram" then PromValueType.untypedValue
    else PromValueType.gaugeValue

/-! ### Fixed-width row extraction (`getSiebelData`, part 1) -/

/-- Column names: the header row trimmed, collapsed, and split on spaces. -/
def headerNames (columnsRow : String) : List String :=
  splitOnSpace (trimHeadRow columnsRow)

/-- Column byte widths: separator token length plus the spacer width. -/
def sepLengths (separatorsRow : String) : List Nat :=
  (splitOnSpace (trimHeadRow separatorsRow)).map
    (fun s => s.length + getSpacerLength separatorsRow)

/-- Inner column loop of `getSiebelData` (lines 145-185): walk the column
names and widths in lock-step over the remaining characters of the raw row.
A width is clamped to the remaining length; a clamped width of zero skips
the column without consuming anything; otherwise the prefix is cut off,
trimmed, given the empty-value default, date-converted, and stored. -/
def parseRowAux (disableEmptyOverride : Bool) (dateFormat : String) :
    List String → List Nat → List Char → Row → Row
  | [], _, _, acc => acc
  | _ :: _, [], _, acc => acc
  | colName :: names, len :: lens, row, acc =>
    let colMaxLen := min len row.length
    if colMaxLen = 0 then parseRowAux disableEmptyOverride dateFormat names lens row acc
    else
      let v0 := goTrimSpace (String.mk (row.take colMaxLen))
      let v1 := if v0 = "" && !disableEmptyOverride then "0" else v0
      let v2 :=
        if v1.length = dateFormat.length then convertDateStringToTimestamp v1 dateFormat
        else v1
      parseRowAux disableEmptyOverride dateFormat names lens (row.drop colMaxLen)
        (upsert acc colName v2)

/-- Guarded slice: the take succeeds only when it stays inside the list,
mirroring the bounds Go enforces on `rawRow[:colMaxLen]`. -/
def sliceTake (l : List Char) (n : Nat) : Option (List Char) :=
  if n ≤ l.length then some (l.take n) else none

/-- Guarded slice: the drop succeeds only when it stays inside the list,
mirroring the bounds Go enforces on `rawRow[colMaxLen:]`. -/
def sliceDrop (l : List Char) (n : Nat) : Option (List Char) :=
  if n ≤ l.length then some (l.drop n) else none

/-- `parseRowAux` with every string slice routed through the guarded
operations: a slice outside the line's bounds would abort the whole row with
`none`, the shallow image of a Go slice-bounds panic. -/
def parseRowAuxChecked (disableEmptyOverride : Bool) (dateFormat : String) :
    List String → List Nat → List Char → Row → Option Row
  | [], _, _, acc => some acc
  | _ :: _, [], _, acc => some acc
  | colName :: names, len :: lens, row, acc =>
    let colMaxLen := min len row.length
    if colMaxLen = 0 then parseRowAuxChecked disableEmptyOverride dateFormat names lens row acc
    else
      match sliceTake row colMaxLen with
      | none => none
      | some taken =>
        let v0 := goTrimSpace (String.mk taken)
        let v1 := if v0 = "" && !disableEmptyOverride then "0" else v0
        let v2 :=
          if v1.length = dateFormat.length then convertDateStringToTimestamp v1 dateFormat
          else v1
        match sliceDrop row colMaxLen with
        | none => none
        | some rest =>
          parseRowAuxChecked disableEmptyOverride dateFormat names lens rest
            (upsert acc colName v2)

/-- Data-row loop of `getSiebelData` (lines 132-189): whitespace-only lines
are skipped outright, every other line is extracted into a row. -/
def parseDataRows (disableEmptyOverride : Bool) (dateFormat : String)
    (names : List String) (lengths : List Nat) (rawDataRows : List String) : List Row :=
  rawDataRows.filterMap (fun rawRow =>
    if goTrimSpace rawRow = "" then none
    else some (parseRowAux disableEmptyOverride dateFormat names lengths rawRow.data []))

/-- Source `getSiebelData`, taking the `SendCommand` outcome as input: a
failed command propagates its error, fewer than 3 lines is invalid output,
otherwise line 1 is the header, line 2 the separator row, and the rest are
fixed-width data rows. -/
def getSiebelData (cmdResult : Except String (List String)) (dateFormat : String)
    (disableEmptyOverride : Bool) : Except String (List Row) :=
  match cmdResult with
  | Except.error e => Except.error e
  | Except.ok lines =>
    match lines with
    | columnsRow :: separatorsRow :: firstData :: restData =>
      Except.ok (parseDataRows disableEmptyOverride dateFormat
        (headerNames columnsRow) (sepLengths separatorsRow) (firstData :: restData))
    | _ => Except.error "command output is not valid"

/-! ### Metric mapper (`convertRowToMetrics` and friends) -/

/-- The value-mapping scan (lines 310-319): the first map entry whose
normalized key equals the normalized raw value replaces the value; no match
leaves it unchanged. -/
def applyValueMap : List (String × String) → String → String
  | [], v => v
  | km :: rest, v => if cleanName km.1 = cleanName v then km.2 else applyValueMap rest v

/-- The mapping table rendered into help text (lines 320-332): each entry as
`dst - 'src', `, sorted, concatenated after " Value mapping: ", the trailing
comma-space trimmed, a final period appended. -/
def mappingHelpText (metricMap : List (String × String)) : String :=
  let mapStrings := metricMap.map (fun kv => kv.2 ++ " - \x27" ++ kv.1 ++ "\x27, ")
  let body := (sortStrings mapStrings).foldl (fun acc s => acc ++ s) " Value mapping: "
  trimRightCommaSpace body ++ "."

/-- Label values for a row (lines 216-227): blank label values become the
"unknown" sentinel. -/
def buildLabelValues (row : Row) (labels : List String) : List String :=
  labels.map (fun label =>
    let v := rowGet row label
    if goTrimSpace v = "" then "unknown" else v)

/-- Cleaned label names (line 225). -/
def buildLabelNames (labels : List String) : List String :=
  labels.map cleanName

/-- Histogram bucket assembly (lines 394-423): for each bucket-map entry the
limit must parse as a float and the row's bucket column (blank meaning "0")
as an unsigned integer; a failing entry is skipped, a repeated limit
overwrites. -/
def buildBuckets (row : Row) (bucketMap : List (String × String)) : List (Rat × Nat) :=
  bucketMap.foldl (fun acc fieldLe =>
    match parseGoFloat (goTrimSpace fieldLe.2) with
    | none => acc
    | some lelimit =>
      let bucketValue0 := rowGet row fieldLe.1
      let bucketValue := if goTrimSpace bucketValue0 = "" then "0" else bucketValue0
      match parseGoUint (goTrimSpace bucketValue) with
      | none => acc
      | some counter =>
        if acc.any (fun p => p.1 == lelimit) then
          acc.map (fun p => if p.1 == lelimit then (lelimit, counter) else p)
        else acc ++ [(lelimit, counter)]) []

/-- Value-resolution stage of one `metric.Help` iteration of
`convertRowToMetrics` (lines 230-352): compute the cleaned exposed name
(field-to-append aware), the help text (dynamic help and value-mapping table
appended), and the parsed numeric value.  `none` is one of the source's
`continue` paths: blank field-to-append, blank time-related value, or a
value that does not parse as a float. -/
def helpEntryValue (metric : Metric) (row : Row) (metricName metricHelp0 : String) :
    Option (String × String × Rat) :=
  let fieldValue := rowGet row metric.FieldToAppend
  if metric.FieldToAppend ≠ "" && goTrimSpace fieldValue = "" then none
  else
    let nameCleaned0 :=
      if metric.FieldToAppend ≠ "" then
        let n := cleanName fieldValue
        if n = "" then "unknown_" ++ cleanName metricName else n
      else cleanName metricName
    let nameCleaned := if nameCleaned0 = "" then "unknown_metric" else nameCleaned0
    let metricHelp1 :=
      match mapGet metric.HelpField metricName with
      | some dinHelpName =>
        match mapGet row dinHelpName with
        | some dinHelpValue => metricHelp0 ++ " " ++ dinHelpValue
        | none => metricHelp0
      | none => metricHelp0
    let metricValue0 := rowGet row metricName
    if goTrimSpace metricValue0 = "" &&
        (strContains (toLowerStr metricName) "time" ||
         strContains (toLowerStr metricHelp1) "time") then none
    else
      -- both empty-value branches of the source (state and other) assign "0"
      let metricValue1 := if goTrimSpace metricValue0 = "" then "0" else metricValue0
      let metricMap := (mapGet metric.ValueMap metricName).getD []
      let metricValue2 :=
        if metricMap ≠ [] then applyValueMap metricMap metricValue1 else metricValue1
      let metricHelp2 :=
        if metricMap ≠ [] then metricHelp1 ++ mappingHelpText metricMap else metricHelp1
      match parseGoFloat metricValue2 with
      | none => none
      | some metricValueParsed => some (nameCleaned, metricHelp2, metricValueParsed)

/-- Emission stage of one `metric.Help` iteration (lines 368-430), reached
only after the dedup key has been registered: a gauge/counter sample is
always produced; a histogram sample additionally needs a non-blank,
parsable "count" row column, failing which nothing is emitted (the key
stays registered). -/
def helpEntryBuild (ns : String) (metric : Metric) (row : Row)
    (labelsValues : List String) (metricName nameCleaned metricHelp2 : String)
    (metricValueParsed : Rat) : Option Sample :=
  let fq := buildFQName ns metric.Subsystem nameCleaned
  match getMetricType metricName metric.Type_ with
  | PromValueType.untypedValue =>
    match mapGet row "count" with
    | none => none
    | some countValue =>
      if goTrimSpace countValue = "" then none
      else
        match parseGoUint (goTrimSpace countValue) with
        | none => none
        | some count =>
          let buckets := buildBuckets row ((mapGet metric.Buckets metricName).getD [])
          some ⟨fq, metricHelp2, buildLabelNames metric.Labels, labelsValues,
            PromValueType.untypedValue, metricValueParsed, count, buckets⟩
  | t =>
    some ⟨fq, metricHelp2, buildLabelNames metric.Labels, labelsValues,
      t, metricValueParsed, 0, []⟩

/-- One iteration of the `metric.Help` loop of `convertRowToMetrics`
(lines 230-431): resolve the value, check and register the dedup key
(lines 354-366), then build the sample.  At most one sample is produced; a
repeated key is silently dropped with the dedup set unchanged. -/
def processHelpEntry (ns : String) (metric : Metric) (row : Row)
    (labelsValues : List String) (metricName metricHelp0 : String)
    (seen : List String) : Option Sample × List String :=
  match helpEntryValue metric row metricName metricHelp0 with
  | none => (none, seen)
  | some (nameCleaned, metricHelp2, metricValueParsed) =>
    let metricKey := createMetricKey ns metric.Subsystem nameCleaned labelsValues
    if metricKey ∈ seen then (none, seen)
    else
      (helpEntryBuild ns metric row labelsValues metricName nameCleaned metricHelp2
        metricValueParsed, metricKey :: seen)

/-- Source `convertRowToMetrics`: skip the whole row when the configured
field-to-append is blank, otherwise run every `Help` entry, threading the
dedup set and collecting the emitted samples. -/
def convertRowToMetrics (row : Row) (ns : String) (metric : Metric)
    (seen : List String) : List Sample × List String :=
  if metric.FieldToAppend ≠ "" && goTrimSpace (rowGet row metric.FieldToAppend) = "" then
    ([], seen)
  else
    let labelsValues := buildLabelValues row metric.Labels
    metric.Help.foldl (fun st e =>
      match processHelpEntry ns metric row labelsValues e.1 e.2 st.2 with
      | (some s, seenNext) => (st.1 ++ [s], seenNext)
      | (none, seenNext) => (st.1, seenNext)) ([], seen)

/-- Source `processDataChunk`: convert each row of a chunk in order,
threading the dedup set; the channel send is modelled as list append. -/
def processDataChunk (chunk : List Row) (ns : String) (metric : Metric)
    (st : List Sample × List String) : List Sample × List String :=
  chunk.foldl (fun st row =>
    let rm := convertRowToMetrics row ns metric st.2
    (st.1 ++ rm.1, rm.2)) st

/-- Chunk size of `generatePrometheusMetrics` (line 20). -/
def chunkSize : Nat := 1000

/-- Chunk loop of `generatePrometheusMetrics` (lines 449-487): process the
data 1000 rows at a time with one shared dedup set. -/
def generateChunked (data : List Row) (ns : String) (metric : Metric)
    (st : List Sample × List String) : List Sample × List String :=
  if h : data = [] then st
  else
    generateChunked (data.drop chunkSize) ns metric
      (processDataChunk (data.take chunkSize) ns metric st)
termination_by data.length
decreasing_by
  simp only [List.length_drop, chunkSize]
  have hpos : 0 < data.length := List.length_pos.mpr h
  omega

/-- Source `generatePrometheusMetrics`: the samples sent for a data set,
starting from a fresh dedup set (the returned count is the length). -/
def generatePrometheusMetrics (data : List Row) (ns : String) (metric : Metric) :
    List Sample :=
  (generateChunked data ns metric ([], [])).1

/-- Source `scrapeGenericValues`, taking the `SendCommand` outcome in place
of the live session: fetch and parse, generate samples, and report a
zero-sample scrape as an error unless `IgnoreZeroResult` is set. -/
def scrapeGenericValues (ns dateFormat : String) (disableEmptyOverride : Bool)
    (cmdResult : Except String (List String)) (metric : Metric) :
    Except String (List Sample) :=
  match getSiebelData cmdResult dateFormat disableEmptyOverride with
  | Except.error e => Except.error e
  | Except.ok rows =>
    let samples := generatePrometheusMetrics rows ns metric
    if samples.length = 0 && !metric.IgnoreZeroResult then
      Except.error ("no metrics found while parsing (metrics count: " ++
        toString samples.length ++ ")")
    else Except.ok samples

/-- Source `validateMetricDesc` (exporter): command and help must be
non-empty, and every histogram-typed column must have a bucket map entry. -/
def validateMetricDesc (metric : Metric) : Bool :=
  if metric.Command.length = 0 then false
  else if metric.Help.length = 0 then false
  else metric.Type_.all (fun ct =>
    if toLowerStr ct.2 = "histogram" then
      metric.Buckets.length ≠ 0 && (mapGet metric.Buckets ct.1).isSome
    else true)

/-- One iteration of the per-definition loop of `Exporter.scrape`
(lines 155-183): invalid or disabled-extended definitions are skipped, a
failed scrape increments the error counter, a successful one contributes its
samples.  The state is (scrape-error counter, samples emitted so far);
`env` maps a command to its `SendCommand` outcome. -/
def scrapeStep (ns dateFormat : String) (disableEmptyOverride disableExtended : Bool)
    (env : String → Except String (List String)) (st : Nat × List Sample)
    (metric : Metric) : Nat × List Sample :=
  if validateMetricDesc metric = false then st
  else if metric.Extended && disableExtended then st
  else
    match scrapeGenericValues ns dateFormat disableEmptyOverride (env metric.Command) metric with
    | Except.error _ => (st.1 + 1, st.2)
    | Except.ok samples => (st.1, st.2 ++ samples)

/-- The per-definition loop of `Exporter.scrape` over a catalog suffix. -/
def scrapeLoopFrom (ns dateFormat : String) (disableEmptyOverride disableExtended : Bool)
    (env : String → Except String (List String)) (st : Nat × List Sample)
    (defs : List Metric) : Nat × List Sample :=
  defs.foldl (scrapeStep ns dateFormat disableEmptyOverride disableExtended env) st

/-- Invariant of the metric-mapper state (samples emitted so far, dedup set):
the initial dedup set `seen0` stays registered, the emitted samples occupy
pairwise distinct dedup keys, and every emitted key is registered in the
dedup set but was not in `seen0`. -/
@[reducible]
def DedupInv (seen0 : List String) (st : List Sample × List String) : Prop :=
  (∀ x ∈ seen0, x ∈ st.2) ∧ (st.1.map sampleKey).Nodup ∧
    (∀ s ∈ st.1, sampleKey s ∈ st.2 ∧ sampleKey s ∉ seen0)

/-! ## Helper lemmas: `removeDuplicates` -/

theorem mem_removeDuplicatesAux (l : List String) :
    ∀ (seen : List String) (s : String),
      s ∈ removeDuplicatesAux seen l ↔ s ∈ l ∧ s ∉ seen := by
  induction l with
  | nil => intro seen s; simp [removeDuplicatesAux]
  | cons a rest ih =>
    intro seen s
    by_cases ha : a ∈ seen
    · simp only [removeDuplicatesAux, if_pos ha, ih, List.mem_cons]
      constructor
      · rintro ⟨hr, hs⟩; exact ⟨Or.inr hr, hs⟩
      · rintro ⟨(rfl | hr), hs⟩
        · exact absurd ha hs
        · exact ⟨hr, hs⟩
    · simp only [removeDuplicatesAux, if_neg ha, List.mem_cons, ih]
      constructor
      · rintro (rfl | ⟨hr, hs⟩)
        · exact ⟨Or.inl rfl, ha⟩
        · exact ⟨Or.inr hr, fun hm => hs (Or.inr hm)⟩
      · rintro ⟨(rfl | hr), hs⟩
        · exact Or.inl rfl
        · by_cases hsa : s = a
          · exact Or.inl hsa
          · exact Or.inr ⟨hr, by simp [List.mem_cons, hsa, hs]⟩

theorem nodup_removeDuplicatesAux (l : List String) :
    ∀ seen : List String, (removeDuplicatesAux seen l).Nodup := by
  induction l with
  | nil => intro seen; simp [removeDuplicatesAux]
  | cons a rest ih =>
    intro seen
    by_cases ha : a ∈ seen
    · simpa only [removeDuplicatesAux, if_pos ha] using ih seen
    · simp only [removeDuplicatesAux, if_neg ha, List.nodup_cons]
      refine ⟨fun hmem => ?_, ih (a :: seen)⟩
      exact ((mem_removeDuplicatesAux rest (a :: seen) a).1 hmem).2 (List.mem_cons_self a seen)

theorem pairwise_indexOf_removeDuplicatesAux (l : List String) :
    ∀ seen : List String,
      (removeDuplicatesAux seen l).Pairwise (fun x y => l.indexOf x < l.indexOf y) := by
  induction l with
  | nil => intro seen; simp [removeDuplicatesAux]
  | cons a rest ih =>
    intro seen
    by_cases ha : a ∈ seen
    · simp only [removeDuplicatesAux, if_pos ha]
      refine (ih seen).imp_of_mem (fun {x y} hx hy hxy => ?_)
      have hxa : a ≠ x := fun h =>
        ((mem_removeDuplicatesAux rest seen x).1 hx).2 (h ▸ ha)
      have hya : a ≠ y := fun h =>
        ((mem_removeDuplicatesAux rest seen y).1 hy).2 (h ▸ ha)
      rw [List.indexOf_cons_ne _ hxa, List.indexOf_cons_ne _ hya]
      exact Nat.succ_lt_succ hxy
    · simp only [removeDuplicatesAux, if_neg ha, List.pairwise_cons]
      constructor
      · intro y hy
        have hya : a ≠ y := fun h =>
          ((mem_removeDuplicatesAux rest (a :: seen) y).1 hy).2 (h ▸ List.mem_cons_self a seen)
        rw [List.indexOf_cons_self, List.indexOf_cons_ne _ hya]
        exact Nat.succ_pos _
      · refine (ih (a :: seen)).imp_of_mem (fun {x y} hx hy hxy => ?_)
        have hxa : a ≠ x := fun h =>
          ((mem_removeDuplicatesAux rest (a :: seen) x).1 hx).2 (h ▸ List.mem_cons_self a seen)
        have hya : a ≠ y := fun h =>
          ((mem_removeDuplicatesAux rest (a :: seen) y).1 hy).2 (h ▸ List.mem_cons_self a seen)
        rw [List.indexOf_cons_ne _ hxa, List.indexOf_cons_ne _ hya]
        exact Nat.succ_lt_succ hxy

theorem removeDuplicatesAux_eq_self (l : List String) :
    ∀ seen : List String, l.Nodup → (∀ x ∈ l, x ∉ seen) →
      removeDuplicatesAux seen l = l := by
  induction l with
  | nil => intro seen _ _; rfl
  | cons a rest ih =>
    intro seen hnd hdisj
    have ha : a ∉ seen := hdisj a (List.mem_cons_self a rest)
    simp only [removeDuplicatesAux, if_neg ha]
    rw [ih (a :: seen) (List.Nodup.of_cons hnd) ?_]
    intro x hx
    simp only [List.mem_cons, not_or]
    exact ⟨fun h => (List.nodup_cons.1 hnd).1 (h ▸ hx), hdisj x (List.mem_cons_of_mem _ hx)⟩

theorem removeDuplicates_idem (l : List String) :
    removeDuplicates (removeDuplicates l) = removeDuplicates l :=
  removeDuplicatesAux_eq_self _ [] (nodup_removeDuplicatesAux l [])
    (fun x _ => List.not_mem_nil x)

/-! ## Helper lemmas: the command polling loop -/

theorem sendLoop_skip_nonprompt (pre : List String) :
    ∀ (rest errQ output : List String),
      (∀ l ∈ pre, promptStartedMatch (goTrimSpace l) = false) →
      sendLoop (pre ++ rest) errQ true output = sendLoop rest errQ true output := by
  induction pre with
  | nil => intro rest errQ output _; rfl
  | cons p ps ih =>
    intro rest errQ output h
    have hp : promptStartedMatch (goTrimSpace p) = false := h p (List.mem_cons_self p ps)
    rw [List.cons_append, sendLoop]
    simp only [hp, if_pos rfl, Bool.false_eq_true, if_false]
    exact ih rest errQ output (fun l hl => h l (List.mem_cons_of_mem _ hl))

theorem sendLoop_first_prompt (p : String) (rest errQ output : List String)
    (hp : promptStartedMatch (goTrimSpace p) = true) :
    sendLoop (p :: rest) errQ true output = sendLoop rest errQ false output := by
  rw [sendLoop]
  simp [hp]

theorem sendLoop_collect (mid : List String) :
    ∀ (rest errQ output : List String),
      (∀ l ∈ mid, promptStartedMatch (goTrimSpace l) = false ∧
        promptEndedMatch (goTrimSpace l) = false) →
      sendLoop (mid ++ rest) errQ false output =
        sendLoop rest errQ false (output ++ mid.map goTrimSpace) := by
  induction mid with
  | nil => intro rest errQ output _; simp
  | cons m ms ih =>
    intro rest errQ output h
    have hm := h m (List.mem_cons_self m ms)
    rw [List.cons_append, sendLoop]
    simp only [hm.1, hm.2, Bool.false_eq_true, if_false, Bool.or_self]
    rw [ih rest errQ (output ++ [goTrimSpace m])
      (fun l hl => h l (List.mem_cons_of_mem _ hl))]
    simp [List.append_assoc]

theorem sendLoop_boundary (b : String) (post errQ output : List String)
    (hb : promptStartedMatch (goTrimSpace b) = true ∨
      promptEndedMatch (goTrimSpace b) = true) :
    sendLoop (b :: post) errQ false output = ⟨removeDuplicates output, false⟩ := by
  rw [sendLoop]
  rcases hb with hb | hb <;> simp [hb]

/-- The full framed exchange: banner lines before the first prompt marker
are dropped, the lines between the marker and the boundary are collected
(trimmed), and the boundary line ends the wait successfully with the
deduplicated collection. -/
theorem sendLoop_framed (errQ pre : List String) (p : String) (mid : List String)
    (b : String) (post : List String)
    (hpre : ∀ l ∈ pre, promptStartedMatch (goTrimSpace l) = false)
    (hp : promptStartedMatch (goTrimSpace p) = true)
    (hmid : ∀ l ∈ mid, promptStartedMatch (goTrimSpace l) = false ∧
      promptEndedMatch (goTrimSpace l) = false)
    (hb : promptStartedMatch (goTrimSpace b) = true ∨
      promptEndedMatch (goTrimSpace b) = true) :
    sendLoop (pre ++ p :: (mid ++ b :: post)) errQ true [] =
      ⟨removeDuplicates (mid.map goTrimSpace), false⟩ := by
  rw [sendLoop_skip_nonprompt pre _ errQ [] hpre,
    sendLoop_first_prompt p _ errQ [] hp,
    sendLoop_collect mid _ errQ [] hmid,
    sendLoop_boundary b post errQ _ hb,
    List.nil_append]

theorem sendLoopErr_timedOut :
    ∀ (stderrQ : List String) (skipInitial : Bool) (output : List String),
      (sendLoopErr stderrQ skipInitial output).timedOut = true := by
  intro stderrQ
  induction stderrQ with
  | nil => intro skipInitial output; rfl
  | cons e es ihe => intro skipInitial output; exact ihe skipInitial (output ++ [goTrimSpace e])

theorem sendLoop_success_dedup :
    ∀ (stdoutQ stderrQ : List String) (skipInitial : Bool) (output : List String),
      (sendLoop stdoutQ stderrQ skipInitial output).timedOut = false →
      ∃ acc, (sendLoop stdoutQ stderrQ skipInitial output).lines = removeDuplicates acc := by
  intro stdoutQ
  induction stdoutQ with
  | nil =>
    intro stderrQ skipInitial output h
    rw [sendLoop, sendLoopErr_timedOut] at h
    exact absurd h (by decide)
  | cons line rest ih =>
    intro stderrQ skipInitial output h
    rw [sendLoop] at h ⊢
    by_cases hskip : skipInitial = true
    · subst hskip
      by_cases hps : promptStartedMatch (goTrimSpace line) = true
      · simp only [hps, if_pos rfl] at h ⊢
        exact ih stderrQ false output h
      · simp only [hps, if_pos rfl] at h ⊢
        exact ih stderrQ true output h
    · have hskip' : skipInitial = false := by
        cases skipInitial
        · rfl
        · exact absurd rfl hskip
      subst hskip'
      by_cases hpe : (promptStartedMatch (goTrimSpace line) ||
          promptEndedMatch (goTrimSpace line)) = true
      · simp only [Bool.false_eq_true, if_false, hpe, if_pos rfl] at h ⊢
        exact ⟨output, rfl⟩
      · simp only [Bool.false_eq_true, if_false, hpe] at h ⊢
        exact ih stderrQ false (output ++ [goTrimSpace line]) h

/-! ## Helper lemmas: the fixed-width parser -/

theorem rowKeys_upsert (acc : Row) (k v : String) (hk : k ∉ rowKeys acc) :
    rowKeys (upsert acc k v) = rowKeys acc ++ [k] := by
  induction acc with
  | nil => rfl
  | cons kv rest ih =>
    have hne : kv.1 ≠ k := by
      intro h
      exact hk (by simp [rowKeys, h])
    simp only [upsert, if_neg hne, rowKeys, List.map_cons, List.cons_append]
    have := ih (fun h => hk (by simp [rowKeys] at h ⊢; exact Or.inr h))
    simpa [rowKeys] using this

theorem parseRowAux_keys (disableEmptyOverride : Bool) (dateFormat : String) :
    ∀ (names : List String) (lens : List Nat) (row : List Char) (acc : Row),
      names.Nodup → names.length = lens.length → (∀ n ∈ lens, 0 < n) →
      lens.sum ≤ row.length → (∀ n ∈ names, n ∉ rowKeys acc) →
      rowKeys (parseRowAux disableEmptyOverride dateFormat names lens row acc) =
        rowKeys acc ++ names := by
  intro names
  induction names with
  | nil => intro lens row acc _ _ _ _ _; cases lens <;> simp [parseRowAux]
  | cons name names ih =>
    intro lens row acc hnd hlen hpos hsum hfresh
    cases lens with
    | nil => exact absurd hlen (by simp)
    | cons len lens =>
      have hlenpos : 0 < len := hpos len (List.mem_cons_self len lens)
      have hsum' : len + lens.sum ≤ row.length := by simpa [List.sum_cons] using hsum
      have hle : len ≤ row.length := le_trans (Nat.le_add_right _ _) hsum'
      have hmin : min len row.length = len := Nat.min_eq_left hle
      have hne0 : ¬ min len row.length = 0 := by omega
      rw [parseRowAux]
      simp only [hmin, if_neg (by omega : ¬ len = 0)]
      have hnamefresh : name ∉ rowKeys acc := hfresh name (List.mem_cons_self name names)
      rw [ih lens (row.drop len) _ (List.Nodup.of_cons hnd) (by simpa using hlen)
        (fun n hn => hpos n (List.mem_cons_of_mem _ hn))
        (by simp only [List.length_drop]; omega)
        ?_]
      · rw [rowKeys_upsert acc name _ hnamefresh, List.append_assoc]
        rfl
      · intro n hn
        rw [rowKeys_upsert acc name _ hnamefresh]
        simp only [List.mem_append, List.mem_singleton, not_or]
        refine ⟨fun h => hfresh n (List.mem_cons_of_mem _ hn) h, fun h => ?_⟩
        exact (List.nodup_cons.1 hnd).1 (h ▸ hn)

theorem parseDataRows_length (disableEmptyOverride : Bool) (dateFormat : String)
    (names : List String) (lengths : List Nat) :
    ∀ rawDataRows : List String,
      (∀ l ∈ rawDataRows, goTrimSpace l ≠ "") →
      (parseDataRows disableEmptyOverride dateFormat names lengths rawDataRows).length =
        rawDataRows.length := by
  intro rawDataRows
  induction rawDataRows with
  | nil => intro _; rfl
  | cons raw rest ih =>
    intro h
    have hraw : ¬ goTrimSpace raw = "" := h raw (List.mem_cons_self raw rest)
    simp only [parseDataRows, List.filterMap_cons, if_neg hraw, List.length_cons]
    have := ih (fun l hl => h l (List.mem_cons_of_mem _ hl))
    simpa [parseDataRows] using this

theorem parseDataRows_mem (disableEmptyOverride : Bool) (dateFormat : String)
    (names : List String) (lengths : List Nat) (rawDataRows : List String) (r : Row)
    (hr : r ∈ parseDataRows disableEmptyOverride dateFormat names lengths rawDataRows) :
    ∃ raw ∈ rawDataRows, goTrimSpace raw ≠ "" ∧
      r = parseRowAux disableEmptyOverride dateFormat names lengths raw.data [] := by
  simp only [parseDataRows, List.mem_filterMap] at hr
  rcases hr with ⟨raw, hraw, hparse⟩
  by_cases hblank : goTrimSpace raw = ""
  · simp [hblank] at hparse
  · refine ⟨raw, hraw, hblank, ?_⟩
    simp only [if_neg hblank, Option.some_inj] at hparse
    exact hparse.symm

/-! ## Helper lemmas: the metric mapper dedup invariant -/

theorem processHelpEntry_seen_mono (ns : String) (metric : Metric) (row : Row)
    (labelsValues : List String) (metricName metricHelp0 : String) (seen : List String) :
    ∀ x ∈ seen,
      x ∈ (processHelpEntry ns metric row labelsValues metricName metricHelp0 seen).2 := by
  intro x hx
  unfold processHelpEntry
  split
  · exact hx
  · dsimp only
    split
    · exact hx
    · exact List.mem_cons_of_mem _ hx

theorem helpEntryBuild_fields (ns : String) (metric : Metric) (row : Row)
    (labelsValues : List String) (metricName nameCleaned metricHelp2 : String)
    (metricValueParsed : Rat) (s : Sample)
    (h : helpEntryBuild ns metric row labelsValues metricName nameCleaned metricHelp2
      metricValueParsed = some s) :
    s.name = buildFQName ns metric.Subsystem nameCleaned ∧
      s.labelValues = labelsValues := by
  unfold helpEntryBuild at h
  repeat' split at h
  all_goals first
    | exact Option.noConfusion h
    | (cases h; exact ⟨rfl, rfl⟩)

theorem helpEntryBuild_key (ns : String) (metric : Metric) (row : Row)
    (labelsValues : List String) (metricName nameCleaned metricHelp2 : String)
    (metricValueParsed : Rat) (s : Sample)
    (h : helpEntryBuild ns metric row labelsValues metricName nameCleaned metricHelp2
      metricValueParsed = some s) :
    sampleKey s = createMetricKey ns metric.Subsystem nameCleaned labelsValues := by
  obtain ⟨h1, h2⟩ := helpEntryBuild_fields ns metric row labelsValues metricName
    nameCleaned metricHelp2 metricValueParsed s h
  rw [sampleKey, h1, h2, createMetricKey]

theorem processHelpEntry_some_key (ns : String) (metric : Metric) (row : Row)
    (labelsValues : List String) (metricName metricHelp0 : String) (seen : List String)
    (s : Sample)
    (h : (processHelpEntry ns metric row labelsValues metricName metricHelp0 seen).1 =
      some s) :
    sampleKey s ∉ seen ∧
      sampleKey s ∈ (processHelpEntry ns metric row labelsValues metricName metricHelp0 seen).2 := by
  unfold processHelpEntry at h ⊢
  split at h
  · exact Option.noConfusion h
  · rename_i nameCleaned metricHelp2 metricValueParsed heq
    dsimp only at h ⊢
    split at h
    · exact Option.noConfusion h
    · rename_i hnotin
      have hkey := helpEntryBuild_key ns metric row labelsValues metricName
        nameCleaned metricHelp2 metricValueParsed s h
      rw [if_neg hnotin]
      constructor
      · rw [hkey]; exact hnotin
      · rw [hkey]; exact List.mem_cons_self _ _

theorem foldl_processHelpEntry_inv (ns : String) (metric : Metric) (row : Row)
    (labelsValues : List String) (seen0 : List String) :
    ∀ (entries : List (String × String)) (st : List Sample × List String),
      DedupInv seen0 st →
      DedupInv seen0 (entries.foldl (fun st e =>
        match processHelpEntry ns metric row labelsValues e.1 e.2 st.2 with
        | (some s, seenNext) => (st.1 ++ [s], seenNext)
        | (none, seenNext) => (st.1, seenNext)) st) := by
  intro entries
  induction entries with
  | nil => intro st h; exact h
  | cons e es ih =>
    intro st hinv
    obtain ⟨h1, h2, h3⟩ := hinv
    rw [List.foldl_cons]
    apply ih
    rcases hp : processHelpEntry ns metric row labelsValues e.1 e.2 st.2 with ⟨os, sn⟩
    have hmono : ∀ x ∈ st.2, x ∈ sn := by
      intro x hx
      have := processHelpEntry_seen_mono ns metric row labelsValues e.1 e.2 st.2 x hx
      rwa [hp] at this
    cases os with
    | none =>
      show DedupInv seen0 (st.1, sn)
      exact ⟨fun x hx => hmono x (h1 x hx), h2,
        fun s hs => ⟨hmono _ (h3 s hs).1, (h3 s hs).2⟩⟩
    | some s =>
      have hkey : sampleKey s ∉ st.2 ∧ sampleKey s ∈ sn := by
        have := processHelpEntry_some_key ns metric row labelsValues e.1 e.2 st.2 s
          (by rw [hp])
        rwa [hp] at this
      show DedupInv seen0 (st.1 ++ [s], sn)
      refine ⟨fun x hx => hmono x (h1 x hx), ?_, ?_⟩
      · rw [List.map_append]
        refine List.Nodup.append h2 (List.nodup_singleton _) ?_
        intro a ha hb
        rcases List.mem_map.1 ha with ⟨t, ht, rfl⟩
        rcases List.mem_singleton.1 (by simpa using hb) with heq
        exact hkey.1 (heq ▸ (h3 t ht).1)
      · intro t ht
        rcases List.mem_append.1 ht with ht | ht
        · exact ⟨hmono _ (h3 t ht).1, (h3 t ht).2⟩
        · rcases List.mem_singleton.1 ht with rfl
          exact ⟨hkey.2, fun hc => hkey.1 (h1 _ hc)⟩

theorem convertRowToMetrics_inv (row : Row) (ns : String) (metric : Metric)
    (seen : List String) :
    DedupInv seen (convertRowToMetrics row ns metric seen) := by
  unfold convertRowToMetrics
  split
  · exact ⟨fun x hx => hx, List.nodup_nil, fun s hs => absurd hs (List.not_mem_nil s)⟩
  · exact foldl_processHelpEntry_inv ns metric row (buildLabelValues row metric.Labels)
      seen metric.Help ([], seen)
      ⟨fun x hx => hx, List.nodup_nil, fun s hs => absurd hs (List.not_mem_nil s)⟩

theorem processDataChunk_inv (ns : String) (metric : Metric) (seen0 : List String) :
    ∀ (chunk : List Row) (st : List Sample × List String),
      DedupInv seen0 st → DedupInv seen0 (processDataChunk chunk ns metric st) := by
  intro chunk
  induction chunk with
  | nil => intro st h; exact h
  | cons row rows ih =>
    intro st hinv
    obtain ⟨h1, h2, h3⟩ := hinv
    unfold processDataChunk
    rw [List.foldl_cons]
    have hstep := ih (st.1 ++ (convertRowToMetrics row ns metric st.2).1,
      (convertRowToMetrics row ns metric st.2).2)
    refine hstep ?_
    obtain ⟨g1, g2, g3⟩ := convertRowToMetrics_inv row ns metric st.2
    refine ⟨fun x hx => g1 x (h1 x hx), ?_, ?_⟩
    · rw [List.map_append]
      refine List.Nodup.append h2 g2 ?_
      intro a ha hb
      rcases List.mem_map.1 ha with ⟨t, ht, rfl⟩
      rcases List.mem_map.1 hb with ⟨u, hu, hueq⟩
      exact (g3 u hu).2 (hueq ▸ (h3 t ht).1)
    · intro t ht
      rcases List.mem_append.1 ht with ht | ht
      · exact ⟨g1 _ (h3 t ht).1, (h3 t ht).2⟩
      · exact ⟨(g3 t ht).1, fun hc => (g3 t ht).2 (h1 _ hc)⟩

theorem generateChunked_eq (ns : String) (metric : Metric) :
    ∀ (n : Nat) (data : List Row) (st : List Sample × List String),
      data.length ≤ n →
      generateChunked data ns metric st = processDataChunk data ns metric st := by
  intro n
  induction n with
  | zero =>
    intro data st hlen
    have hd : data = [] := List.eq_nil_of_length_eq_zero (Nat.le_zero.1 hlen)
    subst hd
    rw [generateChunked]
    rfl
  | succ n ih =>
    intro data st hlen
    by_cases hd : data = []
    · subst hd
      rw [generateChunked]
      rfl
    · rw [generateChunked]
      rw [dif_neg hd]
      rw [ih (data.drop chunkSize) _ ?_]
      · show processDataChunk (data.drop chunkSize) ns metric
          (processDataChunk (data.take chunkSize) ns metric st) =
          processDataChunk data ns metric st
        unfold processDataChunk
        rw [← List.foldl_append]
        rw [List.take_append_drop]
      · have hpos : 0 < data.length := List.length_pos.mpr hd
        simp only [List.length_drop, chunkSize]
        omega

theorem generatePrometheusMetrics_eq (data : List Row) (ns : String) (metric : Metric) :
    generatePrometheusMetrics data ns metric =
      (processDataChunk data ns metric ([], [])).1 := by
  unfold generatePrometheusMetrics
  rw [generateChunked_eq ns metric data.length data ([], []) le_rfl]

/-! ## Claim theorems -/

/-- Claim C1: for every command/response exchange, `sendCommandWithContext`
discards every stdout line observed before the first line matching the
prompt-start pattern, then accumulates subsequent lines until a line
matching the prompt-start pattern or the "row(s) returned." terminator
pattern is seen; that boundary line is excluded from the returned list and
the wait ends successfully (with the accumulated lines, deduplicated). -/
theorem claim_C1 :
    ∀ (stderrQ pre : List String) (p : String) (mid : List String) (b : String)
      (post : List String),
      (∀ l ∈ pre, promptStartedMatch (goTrimSpace l) = false) →
      promptStartedMatch (goTrimSpace p) = true →
      (∀ l ∈ mid, promptStartedMatch (goTrimSpace l) = false ∧
        promptEndedMatch (goTrimSpace l) = false) →
      (promptStartedMatch (goTrimSpace b) = true ∨
        promptEndedMatch (goTrimSpace b) = true) →
      sendLoop (pre ++ p :: (mid ++ b :: post)) stderrQ true [] =
        ⟨removeDuplicates (mid.map goTrimSpace), false⟩ :=
  fun stderrQ pre p mid b post hpre hp hmid hb =>
    sendLoop_framed stderrQ pre p mid b post hpre hp hmid hb

/-- Witness for C1: a banner line is discarded, the two body lines are
returned, the "1 row returned." terminator is excluded, the wait succeeds. -/
theorem claim_C1_witness :
    sendLoop (["Siebel Enterprise Applications banner"] ++
        "srvrmgr>" :: (["NAME STATE", "SRV01 Running"] ++ "1 row returned." :: ["leftover"]))
      [] true [] = ⟨["NAME STATE", "SRV01 Running"], false⟩ :=
  claim_C1 [] ["Siebel Enterprise Applications banner"] "srvrmgr>"
    ["NAME STATE", "SRV01 Running"] "1 row returned." ["leftover"]
    (by decide) (by decide) (by decide) (by decide)

/-- Claim C9: `removeDuplicates` returns each distinct string of its input
exactly once (no duplicates, membership preserved), ordered by the position
of the first occurrence in the input; and every successfully framed response
of the command channel is a fixed point of this deduplication. -/
theorem claim_C9 :
    (∀ input : List String,
      (removeDuplicates input).Nodup ∧
      (∀ s, s ∈ removeDuplicates input ↔ s ∈ input) ∧
      (removeDuplicates input).Pairwise
        (fun a b => input.indexOf a < input.indexOf b)) ∧
    (∀ (stdoutQ stderrQ : List String) (skipInitial : Bool) (output : List String),
      (sendLoop stdoutQ stderrQ skipInitial output).timedOut = false →
      (sendLoop stdoutQ stderrQ skipInitial output).lines =
        removeDuplicates (sendLoop stdoutQ stderrQ skipInitial output).lines) := by
  constructor
  · intro input
    refine ⟨nodup_removeDuplicatesAux input [], fun s => ?_,
      pairwise_indexOf_removeDuplicatesAux input []⟩
    simpa using mem_removeDuplicatesAux input [] s
  · intro stdoutQ stderrQ skipInitial output h
    rcases sendLoop_success_dedup stdoutQ stderrQ skipInitial output h with ⟨acc, hacc⟩
    rw [hacc, removeDuplicates_idem]

/-- Witness for C9: a successful exchange with a repeated body line returns
output that deduplication leaves unchanged. -/
theorem claim_C9_witness :
    (sendLoop ["srvrmgr>", "SRV01 Running", "SRV01 Running", "1 row returned."]
        [] true []).lines =
      removeDuplicates
        (sendLoop ["srvrmgr>", "SRV01 Running", "SRV01 Running", "1 row returned."]
          [] true []).lines :=
  claim_C9.2 ["srvrmgr>", "SRV01 Running", "SRV01 Running", "1 row returned."]
    [] true [] (by decide)

/-- Claim C3: within one scrape of a metric definition, at most one sample
is emitted per (namespace, subsystem, cleaned name, label values) dedup key:
the emitted samples of any row sequence occupy pairwise distinct keys, and
two rows differing only in a column that is neither a label nor the metric
name produce exactly one sample — the one from the first row. -/
theorem claim_C3 :
    (∀ (ns : String) (metric : Metric) (rows : List Row),
      ((generatePrometheusMetrics rows ns metric).map sampleKey).Nodup) ∧
    (generatePrometheusMetrics
        [[("NAME", "SRV01"), ("STATE", "Running"), ("TASKS", "5")],
         [("NAME", "SRV01"), ("STATE", "Running"), ("TASKS", "9")]] "siebel"
        ⟨"list tasks", "server", [("STATE", "Task state")], [], [], [],
          [("STATE", [("Running", "2")])], ["NAME"], "", false, false⟩ =
      generatePrometheusMetrics
        [[("NAME", "SRV01"), ("STATE", "Running"), ("TASKS", "5")]] "siebel"
        ⟨"list tasks", "server", [("STATE", "Task state")], [], [], [],
          [("STATE", [("Running", "2")])], ["NAME"], "", false, false⟩ ∧
    (generatePrometheusMetrics
        [[("NAME", "SRV01"), ("STATE", "Running"), ("TASKS", "5")],
         [("NAME", "SRV01"), ("STATE", "Running"), ("TASKS", "9")]] "siebel"
        ⟨"list tasks", "server", [("STATE", "Task state")], [], [], [],
          [("STATE", [("Running", "2")])], ["NAME"], "", false, false⟩).length = 1) := by
  refine ⟨?_, ?_, ?_⟩
  · intro ns metric rows
    rw [generatePrometheusMetrics_eq]
    exact (processDataChunk_inv ns metric [] rows ([], [])
      ⟨fun x hx => absurd hx (List.not_mem_nil x), List.nodup_nil,
        fun s hs => absurd hs (List.not_mem_nil s)⟩).2.1
  · rw [generatePrometheusMetrics_eq, generatePrometheusMetrics_eq]
    decide
  · rw [generatePrometheusMetrics_eq]
    decide

/-- Claim C7: a configured value map replaces the raw row value through a
`cleanName`-normalized key match, the mapping table is appended to the help
text, and on the row NAME=SRV01, STATE=Running with mapping Running ↦ 2 the
mapper emits the gauge `siebel_server_state` with value 2. -/
theorem claim_C7 :
    (∀ k v m : String, cleanName k = cleanName v → applyValueMap [(k, m)] v = m) ∧
    convertRowToMetrics [("NAME", "SRV01"), ("STATE", "Running")] "siebel"
        ⟨"list servers", "server", [("STATE", "State of the server.")], [], [], [],
          [("STATE", [("Running", "2")])], ["NAME"], "", false, false⟩ [] =
      ([⟨"siebel_server_state",
          "State of the server. Value mapping: 2 - \x27Running\x27.",
          ["name"], ["SRV01"], PromValueType.gaugeValue, 2, 0, []⟩],
        ["siebel_server_state\x7bSRV01\x7d"]) := by
  constructor
  · intro k v m h
    unfold applyValueMap
    rw [if_pos h]
  · decide

/-- Witness for C7: the map key "Running" rewrites the differently formatted
raw value "running " (the normalized forms agree) to "2". -/
theorem claim_C7_witness : applyValueMap [("Running", "2")] "running " = "2" :=
  claim_C7.1 "Running" "running " "2" (by decide)

/-- Claim C8: a definition whose scrape produces zero samples with the
ignore-zero-result flag unset makes `scrapeGenericValues` return an error;
the scrape loop then increments the error counter, emits nothing for that
definition, and continues with the remaining definitions unchanged. -/
theorem claim_C8 :
    ∀ (ns dateFormat : String) (disableEmptyOverride disableExtended : Bool)
      (env : String → Except String (List String)) (st : Nat × List Sample)
      (pre post : List Metric) (metric : Metric) (rows : List Row),
      validateMetricDesc metric = true →
      (metric.Extended && disableExtended) = false →
      getSiebelData (env metric.Command) dateFormat disableEmptyOverride =
        Except.ok rows →
      generatePrometheusMetrics rows ns metric = [] →
      metric.IgnoreZeroResult = false →
      scrapeGenericValues ns dateFormat disableEmptyOverride (env metric.Command) metric =
        Except.error "no metrics found while parsing (metrics count: 0)" ∧
      scrapeLoopFrom ns dateFormat disableEmptyOverride disableExtended env st
          (pre ++ metric :: post) =
        scrapeLoopFrom ns dateFormat disableEmptyOverride disableExtended env
          ((scrapeLoopFrom ns dateFormat disableEmptyOverride disableExtended env st pre).1 + 1,
            (scrapeLoopFrom ns dateFormat disableEmptyOverride disableExtended env st pre).2)
          post := by
  intro ns dateFormat disableEmptyOverride disableExtended env st pre post metric rows
    hval hext hdata hzero hign
  have herr : scrapeGenericValues ns dateFormat disableEmptyOverride
      (env metric.Command) metric =
      Except.error "no metrics found while parsing (metrics count: 0)" := by
    unfold scrapeGenericValues
    rw [hdata]
    simp only [hzero, hign]
    rfl
  refine ⟨herr, ?_⟩
  unfold scrapeLoopFrom
  rw [List.foldl_append, List.foldl_cons]
  have hstep : scrapeStep ns dateFormat disableEmptyOverride disableExtended env
      (List.foldl (scrapeStep ns dateFormat disableEmptyOverride disableExtended env) st pre)
      metric =
      ((List.foldl (scrapeStep ns dateFormat disableEmptyOverride disableExtended env)
          st pre).1 + 1,
        (List.foldl (scrapeStep ns dateFormat disableEmptyOverride disableExtended env)
          st pre).2) := by
    unfold scrapeStep
    simp [hval, hext, herr]
  rw [hstep]

/-- Witness for C8: a catalog of one valid definition whose command returns
a header, a separator and one blank data line (hence zero rows and zero
samples) yields one scrape error and no samples, and the loop terminates
normally. -/
theorem claim_C8_witness :
    scrapeLoopFrom "siebel" "2006-01-02 15:04:05" false false
        (fun _ => Except.ok ["A B", "- -", "   "]) (0, [])
        [⟨"list x", "s", [("VAL", "v")], [], [], [], [], [], "", false, false⟩] =
      (1, []) :=
  (claim_C8 "siebel" "2006-01-02 15:04:05" false false
      (fun _ => Except.ok ["A B", "- -", "   "]) (0, []) [] []
      ⟨"list x", "s", [("VAL", "v")], [], [], [], [], [], "", false, false⟩ []
      (by decide) (by decide) rfl
      (by rw [generatePrometheusMetrics_eq]; rfl) rfl).2

/-- Claim C4: `SendCommandWithTimeout` returns an error without writing to
stdin whenever the session status is not `Connected`; in the single case
where the status is `Reconnecting` it waits one short grace interval,
re-checks, and proceeds (reaching the stdin write) exactly when the status
has become `Connected`, rejecting otherwise. -/
theorem claim_C4 :
    ∀ before after : Status,
      sendCommandStatusCheck before after = SendOutcome.proceeds ↔
        (before = Status.Connected ∨
          (before = Status.Reconnecting ∧ after = Status.Connected)) := by
  intro before after
  cases before <;> cases after <;> decide

/-- Claim C6: the tabular parser rejects any command output with fewer than
3 total lines by returning the "command output is not valid" error and no
rows. -/
theorem claim_C6 :
    ∀ (dateFormat : String) (disableEmptyOverride : Bool) (lines : List String),
      lines.length < 3 →
      getSiebelData (Except.ok lines) dateFormat disableEmptyOverride =
        Except.error "command output is not valid" := by
  intro dateFormat disableEmptyOverride lines h
  match lines with
  | [] => rfl
  | [_] => rfl
  | [_, _] => rfl
  | _ :: _ :: _ :: _ => exact absurd h (by simp [List.length])

/-- Witness for C6: a two-line header/separator response with no data rows
is rejected. -/
theorem claim_C6_witness :
    getSiebelData (Except.ok ["NAME STATE", "---- -----"]) "2006-01-02 15:04:05" false =
      Except.error "command output is not valid" :=
  claim_C6 "2006-01-02 15:04:05" false ["NAME STATE", "---- -----"] (by decide)

/-- Counterexample for C2: run the reconnection loop with
`ReconnectDelay = 5000` ms and the backoff configuration the claim fixes
(InitialDelay 5000 ms, Multiplier 1.5, JitterFactor 0).  The loop waits
5000 ms before every retry, while the claimed formula requires the second
wait to be `min(5000 × 1.5, MaxDelay) = 7500` ms; `BackoffConfig` is never
read by `tryReconnect`. -/
theorem claim_C2_counterexample :
    reconnectWaits ⟨true, 5000, ⟨5000, 300000, 3 / 2, 10, 0⟩⟩ [false, false] =
      [5000, 5000] ∧
    specBackoffDelay ⟨5000, 300000, 3 / 2, 10, 0⟩ 1 = 7500 ∧
    (5000 : Nat) ≠ 7500 := by
  refine ⟨rfl, ?_, by decide⟩
  show min ((5000 : Rat) * (3 / 2)) 300000 = 7500
  norm_num

/-- Claim C2 (amended): every delay the reconnection loop waits between
consecutive connection attempts equals the fixed `ReconnectDelay` of the
configuration snapshot; the `BackoffConfig` fields are not consulted. -/
theorem claim_C2 :
    ∀ (cfg : ServerManagerConfig) (outcomes : List Bool) (d : Nat),
      d ∈ reconnectWaits cfg outcomes → d = cfg.ReconnectDelay := by
  intro cfg outcomes
  induction outcomes with
  | nil => intro d hd; simp [reconnectWaits] at hd
  | cons ok rest ih =>
    intro d hd
    cases ok with
    | true => simp [reconnectWaits] at hd
    | false =>
      simp only [reconnectWaits, Bool.false_eq_true, if_false, List.mem_cons] at hd
      rcases hd with h | h
      · exact h
      · exact ih d h

/-- Witness for C2 (amended): after one failed attempt the loop waited
exactly the configured 5000 ms. -/
theorem claim_C2_witness :
    (5000 : Nat) =
      (⟨true, 5000, ⟨5000, 300000, 3 / 2, 10, 0⟩⟩ : ServerManagerConfig).ReconnectDelay :=
  claim_C2 ⟨true, 5000, ⟨5000, 300000, 3 / 2, 10, 0⟩⟩ [false] 5000 (by decide)

/-- Counterexample for C5: a whitespace-only data line is skipped outright
(`getSiebelData` line 134), so it yields no row at all: with 2 data lines,
one blank, the result has 1 row, not one per data line, and no extraction
is attempted for the blank line. -/
theorem claim_C5_counterexample :
    getSiebelData (Except.ok ["NAME STATE", "---- -----", "SRV01 Running", "   "])
        "2006-01-02 15:04:05" false =
      Except.ok [[("NAME", "SRV01"), ("STATE", "Runni")]] ∧
    ([[("NAME", "SRV01"), ("STATE", "Runni")]] : List Row).length = 1 ∧
    (["SRV01 Running", "   "] : List String).length = 2 ∧ (1 : Nat) ≠ 2 :=
  ⟨rfl, rfl, rfl, by decide⟩

/-- Claim C5 (amended): for a well-formed header/separator/data triple the
parser yields exactly one row per NON-BLANK data line — whitespace-only
lines are skipped and produce no row — and when every column width is
positive, the header tokens are distinct and match the separator tokens,
and a data line is long enough to reach every column, its row is keyed by
precisely the header tokens; short non-blank lines still attempt extraction
as far as the data permits and are never rejected. -/
theorem claim_C5 :
    ∀ (dateFormat : String) (disableEmptyOverride : Bool)
      (columnsRow separatorsRow firstData : String) (restData : List String),
      (∀ l ∈ firstData :: restData, goTrimSpace l ≠ "") →
      (getSiebelData (Except.ok (columnsRow :: separatorsRow :: firstData :: restData))
          dateFormat disableEmptyOverride =
        Except.ok (parseDataRows disableEmptyOverride dateFormat
          (headerNames columnsRow) (sepLengths separatorsRow) (firstData :: restData))) ∧
      (parseDataRows disableEmptyOverride dateFormat (headerNames columnsRow)
          (sepLengths separatorsRow) (firstData :: restData)).length =
        (firstData :: restData).length ∧
      ((headerNames columnsRow).Nodup →
        (headerNames columnsRow).length = (sepLengths separatorsRow).length →
        (∀ n ∈ sepLengths separatorsRow, 0 < n) →
        (∀ l ∈ firstData :: restData, (sepLengths separatorsRow).sum ≤ l.length) →
        ∀ r ∈ parseDataRows disableEmptyOverride dateFormat (headerNames columnsRow)
            (sepLengths separatorsRow) (firstData :: restData),
          rowKeys r = headerNames columnsRow) := by
  intro dateFormat disableEmptyOverride columnsRow separatorsRow firstData restData hnb
  refine ⟨rfl, parseDataRows_length _ _ _ _ _ hnb, ?_⟩
  intro hnd hlen hpos hlong r hr
  rcases parseDataRows_mem _ _ _ _ _ r hr with ⟨raw, hraw, _, rfl⟩
  have hsum : (sepLengths separatorsRow).sum ≤ raw.data.length := hlong raw hraw
  have := parseRowAux_keys disableEmptyOverride dateFormat (headerNames columnsRow)
    (sepLengths separatorsRow) raw.data [] hnd hlen hpos hsum
    (fun n _ => List.not_mem_nil n)
  simpa [rowKeys] using this

/-- Witness for C5 (amended): a 6-character data line against two 3-wide
columns parses into one row keyed by exactly the two header tokens. -/
theorem claim_C5_witness :
    rowKeys [("AB", "x1"), ("CD", "y2z")] = headerNames "AB CD" :=
  (claim_C5 "2006-01-02 15:04:05" false "AB CD" "-- --" "x1 y2z" [] (by decide)).2.2
    (by decide) (by decide) (by decide) (by decide)
    [("AB", "x1"), ("CD", "y2z")] (by decide)

/-- Claim C10: the fixed-width extraction is in bounds.  Routing every
substring operation through bounds-guarded slices never fails (the clamped
width cannot exceed the remaining line length), and a fully consumed line
adds no further column keys, so short rows simply omit the unreachable
trailing columns. -/
theorem claim_C10 :
    (∀ (disableEmptyOverride : Bool) (dateFormat : String) (names : List String)
        (lens : List Nat) (row : List Char) (acc : Row),
      parseRowAuxChecked disableEmptyOverride dateFormat names lens row acc =
        some (parseRowAux disableEmptyOverride dateFormat names lens row acc)) ∧
    (∀ (disableEmptyOverride : Bool) (dateFormat : String) (names : List String)
        (lens : List Nat) (acc : Row),
      parseRowAux disableEmptyOverride dateFormat names lens [] acc = acc) := by
  constructor
  · intro disableEmptyOverride dateFormat names
    induction names with
    | nil => intro lens row acc; rfl
    | cons name names ih =>
      intro lens row acc
      cases lens with
      | nil => rfl
      | cons len lens =>
        by_cases h0 : min len row.length = 0
        · simp only [parseRowAux, parseRowAuxChecked, h0, if_pos rfl]
          exact ih lens row acc
        · have hle : min len row.length ≤ row.length := Nat.min_le_right _ _
          simp only [parseRowAux, parseRowAuxChecked, h0, if_neg h0, sliceTake, sliceDrop,
            if_pos hle]
          exact ih lens _ _
  · intro disableEmptyOverride dateFormat names
    induction names with
    | nil => intro lens acc; rfl
    | cons name names ih =>
      intro lens acc
      cases lens with
      | nil => rfl
      | cons len lens =>
        simp only [parseRowAux, List.length_nil, Nat.min_zero, if_pos rfl]
        exact ih lens acc

end SiebelExporter
